import Mathlib

set_option linter.unusedVariables false
set_option linter.unnecessarySeqFocus false

/-!
Verification of the Aurora suggestion diff-and-apply pipeline.

The definitions below are a shallow embedding of the TypeScript sources:
  - src/services/DiffService.ts   (computeDiffs, convertToRangedDiffs, positionAt)
  - src/ChatWebview.ts            (handleAcceptAllDiffs and its sort/apply loop)
  - src/services/OpenAIService.ts / src/services/GeminiService.ts
                                  (generateResponse retry loop, shouldRetry,
                                   getModelConfig)
  - src/types.ts                  (DiffChange, ModelConfig, MODEL_TOKEN_LIMITS,
                                   DEFAULT_MODEL_CONFIGS)
Text buffers are `List Char`; JavaScript strings of the sources are embedded
as their character lists.
-/

namespace Aurora

/-- `vscode.Position`: zero-based line and column, as produced by
`DiffService.positionAt`. -/
structure Pos where
  line : Nat
  col : Nat
deriving DecidableEq, Repr

/-- `vscode.Range`: a start and an end position.  The end field is named
`stop` because `end` is a Lean keyword. -/
structure TextRange where
  start : Pos
  stop : Pos
deriving DecidableEq, Repr

/-- The `status` field of a `DiffChange` (src/types.ts). -/
inductive DiffStatus where
  | pending
  | accepted
  | rejected
deriving DecidableEq, Repr

/-- `DiffChange` from src/types.ts: original text, suggested text, the range
in the original document, and the lifecycle status. -/
structure DiffChange where
  original : List Char
  suggested : List Char
  range : TextRange
  status : DiffStatus
deriving DecidableEq, Repr

/-- The position of the end of the text `l`, computed exactly as
`DiffService.positionAt` computes it for `text.slice(0, offset)`:
`lines = s.split('\n'); Position(lines.length - 1, lines[lines.length-1].length)`,
i.e. the line is the number of newline characters and the column is the
number of characters after the last newline. -/
def posOf : List Char → Pos
  | [] => ⟨0, 0⟩
  | c :: rest =>
    if c = '\n' then ⟨(posOf rest).line + 1, (posOf rest).col⟩
    else if (posOf rest).line = 0 then ⟨0, (posOf rest).col + 1⟩
    else posOf rest

/-- `DiffService.positionAt(offset, text)`: the `{line, column}` of character
offset `offset` in `text`, obtained from the slice of `text` up to `offset`. -/
def positionAt (offset : Nat) (text : List Char) : Pos :=
  posOf (text.take offset)

/-- The character offset at which line `k` starts in `text`: advance past `k`
newline characters (or to the end of the text).  This is how an editor buffer
resolves the line component of a `{line, column}` position. -/
def lineStartOffset : List Char → Nat → Nat
  | _, 0 => 0
  | [], _ + 1 => 0
  | c :: rest, k + 1 => 1 + lineStartOffset rest (if c = '\n' then k else k + 1)

/-- The character offset of position `p` in the buffer `text`: the start
offset of its line plus its column. -/
def offsetOf (text : List Char) (p : Pos) : Nat :=
  lineStartOffset text p.line + p.col

/-- One live-buffer mutation, modelling `editBuilder.replace(range, text)`:
the text between the offsets of `r.start` and `r.stop` in the current buffer
is replaced by `text`. -/
def replaceRange (buf : List Char) (r : TextRange) (text : List Char) : List Char :=
  buf.take (offsetOf buf r.start) ++ text ++ buf.drop (offsetOf buf r.stop)

/-- Sequentially apply a list of change records to a live buffer, each one
replacing the text in its range by its suggested text. -/
def applySeq (buf : List Char) (records : List DiffChange) : List Char :=
  records.foldl (fun b r => replaceRange b r.range r.suggested) buf

/-- One diff-match-patch operation `[operation, text]`: operation `-1` is
DELETE, `0` is EQUAL, `1` is INSERT. -/
abbrev DmpDiff := Int × List Char

/-- The loop of `DiffService.convertToRangedDiffs`, carrying the running
character offset `currentPos` into `original`.  Every non-EQUAL operation
becomes one `DiffChange`; the offset advances over every non-INSERT
operation. -/
def convertGo (original : List Char) : Nat → List DmpDiff → List DiffChange
  | _, [] => []
  | currentPos, (operation, text) :: rest =>
    let tail := convertGo original
      (if operation ≠ 1 then currentPos + text.length else currentPos) rest
    if operation ≠ 0 then
      { original := if operation = -1 then text else []
        suggested := if operation = 1 then text else []
        range := ⟨positionAt currentPos original,
                  positionAt (currentPos + (if operation = -1 then text.length else 0)) original⟩
        status := DiffStatus.pending } :: tail
    else tail

/-- `DiffService.convertToRangedDiffs(diffs, original)`. -/
def convertToRangedDiffs (diffs : List DmpDiff) (original : List Char) : List DiffChange :=
  convertGo original 0 diffs

/-- Longest common head of two character lists, returned together with the
two remainders. -/
def commonHead : List Char → List Char → List Char × List Char × List Char
  | [], bs => ([], [], bs)
  | a :: as, [] => ([], a :: as, [])
  | a :: as, b :: bs =>
    if a = b then
      ((commonHead as bs).1.cons a, (commonHead as bs).2.1, (commonHead as bs).2.2)
    else ([], a :: as, b :: bs)

/-- Longest common tail of two character lists, returned together with the
two remainders. -/
def commonTail (a b : List Char) : List Char × List Char × List Char :=
  let r := commonHead a.reverse b.reverse
  (r.1.reverse, r.2.1.reverse, r.2.2.reverse)

/-- Modelled from the spec: the operation stream of the external npm library
diff-match-patch (`diff_main` followed by `diff_cleanupSemantic`), which is a
third-party dependency and not part of this repository.  Per spec section 4.2
the backend returns an ordered `{equal, insert, delete}` operation stream
whose equal/delete texts concatenate to the original, whose equal/insert
texts concatenate to the suggestion, and in which identical inputs produce no
edit operations.  It is modelled as common head/tail trimming around a
single delete/insert middle, with no empty segments emitted, matching the
library's normalized (delete-before-insert) output on such inputs. -/
def diffMain (original suggested : List Char) : List DmpDiff :=
  let pr := commonHead original suggested
  let sf := commonTail pr.2.1 pr.2.2
  (if pr.1.isEmpty then [] else [((0 : Int), pr.1)]) ++
  (if sf.2.1.isEmpty then [] else [((-1 : Int), sf.2.1)]) ++
  (if sf.2.2.isEmpty then [] else [((1 : Int), sf.2.2)]) ++
  (if sf.1.isEmpty then [] else [((0 : Int), sf.1)])

/-- `DiffService.computeDiffs(original, suggested)` on its success path:
the backend operation stream converted to ranged `DiffChange` records. -/
def computeDiffs (original suggested : List Char) : List DiffChange :=
  convertToRangedDiffs (diffMain original suggested) original

/-- `DiffService.computeDiffs` including its try/catch: the backend result is
either an operation stream or a thrown error; the catch handler reports the
error via the error manager and returns the empty list. -/
def computeDiffsWith (backend : Except (List Char) (List DmpDiff))
    (original : List Char) : List DiffChange :=
  match backend with
  | .ok ds => convertToRangedDiffs ds original
  | .error _ => []

/-- The sort key of `handleAcceptAllDiffs`' comparator
`(a, b) => b.range.start.line - a.range.start.line`: the start line only. -/
def lineOf (r : DiffChange) : Nat :=
  r.range.start.line

/-- Stable insertion of `x` in front of the first element whose start line is
at most `x`'s. -/
def insertDescLine (x : DiffChange) : List DiffChange → List DiffChange
  | [] => [x]
  | y :: ys => if lineOf y ≤ lineOf x then x :: y :: ys else y :: insertDescLine x ys

/-- The stable sort `[...diffs].sort((a, b) => b.range.start.line - a.range.start.line)`
of `ChatWebview.handleAcceptAllDiffs`: descending by start line only, records
with equal start lines keeping their original relative order (JavaScript's
`Array.prototype.sort` is stable). -/
def sortDescLine : List DiffChange → List DiffChange
  | [] => []
  | x :: xs => insertDescLine x (sortDescLine xs)

/-- Lexicographic order on positions: by line, then by column. -/
def posLeB (a b : Pos) : Bool :=
  a.line < b.line || (a.line = b.line && a.col ≤ b.col)

/-- Stable insertion of `x` in front of the first element whose full start
position is lexicographically at most `x`'s. -/
def insertDescPos (x : DiffChange) : List DiffChange → List DiffChange
  | [] => [x]
  | y :: ys =>
    if posLeB y.range.start x.range.start then x :: y :: ys else y :: insertDescPos x ys

/-- Stable sort of records by descending full start position (line, then
column): the ordering rule of spec section 4.4. -/
def sortDescPos : List DiffChange → List DiffChange
  | [] => []
  | x :: xs => insertDescPos x (sortDescPos xs)

/-- The change-set state owned by `ChatWebview`: the current records and the
live document buffer. -/
structure ApplyState where
  diffs : List DiffChange
  buffer : List Char
deriving DecidableEq, Repr

/-- One edit handed to `editBuilder.replace`: a range and its replacement
text. -/
abbrev Edit := TextRange × List Char

/-- The loop body of `handleAcceptAllDiffs`: walk the sorted records and, for
each record whose status is still pending, replace its range by its suggested
text; return the final buffer together with the batch of edits performed. -/
def applyPending : List Char → List DiffChange → List Char × List Edit
  | buf, [] => (buf, [])
  | buf, r :: rs =>
    if r.status = DiffStatus.pending then
      let res := applyPending (replaceRange buf r.range r.suggested) rs
      (res.1, (r.range, r.suggested) :: res.2)
    else applyPending buf rs

/-- `ChatWebview.handleAcceptAllDiffs`: sort the current records by descending
start line, apply every still-pending one to the buffer, and mark every
previously pending record accepted.  Returns the new state and the batch of
edits passed to the buffer. -/
def handleAcceptAllDiffs (st : ApplyState) : ApplyState × List Edit :=
  let res := applyPending st.buffer (sortDescLine st.diffs)
  (⟨st.diffs.map
      (fun r => if r.status = DiffStatus.pending then { r with status := DiffStatus.accepted } else r),
    res.1⟩,
   res.2)

/-- A thrown JavaScript `Error`, carrying its message. -/
structure JsErr where
  msg : List Char
deriving DecidableEq, Repr

/-- `message.toLowerCase()`. -/
def toLowerList (l : List Char) : List Char :=
  l.map Char.toLower

/-- Whether `pat` occurs at the start of `hay`. -/
def headMatches : List Char → List Char → Bool
  | [], _ => true
  | _ :: _, [] => false
  | a :: as, b :: bs => a == b && headMatches as bs

/-- `hay.includes(pat)`: whether `pat` occurs contiguously in `hay`. -/
def containsSub (pat : List Char) : List Char → Bool
  | [] => headMatches pat []
  | c :: rest => headMatches pat (c :: rest) || containsSub pat rest

/-- `OpenAIService.MAX_RETRIES` (also `GeminiService.MAX_RETRIES`). -/
def MAX_RETRIES : Nat := 3

/-- `OpenAIService.RETRY_DELAY` in milliseconds (also
`GeminiService.RETRY_DELAY`). -/
def RETRY_DELAY : Nat := 1000

instance {α β : Type} [DecidableEq α] [DecidableEq β] : DecidableEq (Except α β) := fun
  | .ok a, .ok b =>
    if h : a = b then .isTrue (by rw [h]) else .isFalse (by intro hc; cases hc; exact h rfl)
  | .ok _, .error _ => .isFalse (by intro h; cases h)
  | .error _, .ok _ => .isFalse (by intro h; cases h)
  | .error e, .error f =>
    if h : e = f then .isTrue (by rw [h]) else .isFalse (by intro hc; cases hc; exact h rfl)

/-- The observable trace of one `generateResponse` call: how many requests
were made, the delays slept (in order), and the returned value or thrown
error. -/
structure GenTrace where
  attempts : Nat
  sleeps : List Nat
  result : Except JsErr (List Char)
deriving DecidableEq, Repr

/-- `new Error('Failed to generate response after retries')`. -/
def exhaustedErr : JsErr :=
  ⟨("Failed to generate response after retries").data⟩

/-- The `while (attempt < this.MAX_RETRIES)` loop of `generateResponse`
(identical in OpenAIService and GeminiService).  `req made` is the outcome of
the request on attempt number `made` (zero-based); a retryable failure
increments the attempt counter, sleeps `RETRY_DELAY * attempt`, and loops; a
non-retryable failure is rethrown at once; an exhausted loop throws the last
error. -/
def retryLoop (req : Nat → Except JsErr (List Char)) (shouldRetry : JsErr → Bool) :
    Nat → Nat → Option JsErr → List Nat → GenTrace
  | 0, made, lastErr, sleeps => ⟨made, sleeps, .error (lastErr.getD exhaustedErr)⟩
  | fuel + 1, made, lastErr, sleeps =>
    match req made with
    | .ok s => ⟨made + 1, sleeps, .ok s⟩
    | .error e =>
      if shouldRetry e then
        retryLoop req shouldRetry fuel (made + 1) (some e) (sleeps ++ [RETRY_DELAY * (made + 1)])
      else ⟨made + 1, sleeps, .error e⟩

/-- `generateResponse` of OpenAIService/GeminiService, abstracted over the
service's credential-missing error and retryable-error classifier: a missing
or empty API key (`if (!apiKey)`) throws the authentication error before any
request is made; otherwise the retry loop runs with `attempt = 0`.  The
per-model config resolution performed between the key check and the loop is
modelled separately by `getModelConfig` and assumed to succeed here. -/
def generateResponse (authErr : JsErr) (shouldRetry : JsErr → Bool)
    (apiKey : Option (List Char)) (req : Nat → Except JsErr (List Char)) : GenTrace :=
  match apiKey with
  | none => ⟨0, [], .error authErr⟩
  | some k =>
    if k.isEmpty then ⟨0, [], .error authErr⟩
    else retryLoop req shouldRetry MAX_RETRIES 0 none []

/-- `OpenAIService.shouldRetry`'s fixed classification set. -/
def openAIRetryable : List (List Char) :=
  [("rate_limit_exceeded").data, ("internal_error").data, ("timeout").data,
   ("insufficient_quota").data, ("server_error").data]

/-- `OpenAIService.shouldRetry(error)`: some retryable marker occurs in the
lowercased error message. -/
def shouldRetryOpenAI (e : JsErr) : Bool :=
  openAIRetryable.any (fun t => containsSub t (toLowerList e.msg))

/-- `GeminiService.shouldRetry`'s fixed classification set. -/
def geminiRetryable : List (List Char) :=
  [("rate_limit_exceeded").data, ("internal_error").data, ("timeout").data,
   ("unavailable").data]

/-- `GeminiService.shouldRetry(error)`. -/
def shouldRetryGemini (e : JsErr) : Bool :=
  geminiRetryable.any (fun t => containsSub t (toLowerList e.msg))

/-- `new Error('OpenAI API key not configured')`. -/
def openAIKeyError : JsErr := ⟨("OpenAI API key not configured").data⟩

/-- `new Error('Gemini API key not configured')`. -/
def geminiKeyError : JsErr := ⟨("Gemini API key not configured").data⟩

/-- `OpenAIService.generateResponse`. -/
def openAIGenerateResponse : Option (List Char) → (Nat → Except JsErr (List Char)) → GenTrace :=
  generateResponse openAIKeyError shouldRetryOpenAI

/-- `GeminiService.generateResponse`. -/
def geminiGenerateResponse : Option (List Char) → (Nat → Except JsErr (List Char)) → GenTrace :=
  generateResponse geminiKeyError shouldRetryGemini

/-- A JavaScript runtime value held in a configuration field: a number or
some non-numeric value (the settings store is untyped at runtime, which is
what the `typeof x !== 'number'` validation guards against). -/
inductive JVal where
  | jnum (q : ℚ)
  | jstr (s : List Char)
  | jundef
deriving DecidableEq, Repr

/-- Runtime shape of a `ModelConfig` (src/types.ts): the five generation
parameters. -/
structure GModelConfig where
  temperature : JVal
  maxTokens : JVal
  topP : JVal
  frequencyPenalty : JVal
  presencePenalty : JVal
deriving DecidableEq, Repr

/-- Runtime shape of a `Partial<ModelConfig>` override: each field either
present or absent. -/
structure GPartialConfig where
  temperature : Option JVal
  maxTokens : Option JVal
  topP : Option JVal
  frequencyPenalty : Option JVal
  presencePenalty : Option JVal
deriving DecidableEq, Repr

/-- `typeof v === 'number'`. -/
def isNumberV : JVal → Bool
  | .jnum _ => true
  | _ => false

/-- `new Error('Invalid model configuration values')`. -/
def invalidConfigMsg : List Char := ("Invalid model configuration values").data

/-- `new Error('Default Gemini configuration not found')`. -/
def noDefaultConfigMsg : List Char := ("Default Gemini configuration not found").data

/-- `GeminiService.getModelConfig(config)`: fail if the stored default config
is missing; overlay the caller override field-by-field with `??` (override
wins per present field); then reject unless every resolved field has runtime
type number. -/
def getModelConfig (defaultConfig : Option GModelConfig) (config : Option GPartialConfig) :
    Except (List Char) GModelConfig :=
  match defaultConfig with
  | none => .error noDefaultConfigMsg
  | some d =>
    let merged : GModelConfig :=
      { temperature := (config.bind (fun c => c.temperature)).getD d.temperature
        maxTokens := (config.bind (fun c => c.maxTokens)).getD d.maxTokens
        topP := (config.bind (fun c => c.topP)).getD d.topP
        frequencyPenalty := (config.bind (fun c => c.frequencyPenalty)).getD d.frequencyPenalty
        presencePenalty := (config.bind (fun c => c.presencePenalty)).getD d.presencePenalty }
    if !(isNumberV merged.temperature) || !(isNumberV merged.maxTokens)
        || !(isNumberV merged.topP) || !(isNumberV merged.frequencyPenalty)
        || !(isNumberV merged.presencePenalty) then
      .error invalidConfigMsg
    else
      .ok merged

/-- The model identities of src/types.ts. -/
inductive AIModelId where
  | gpt35turbo
  | gpt4
  | geminiPro
  | claude3sonnet
  | o1pro
deriving DecidableEq, Repr

/-- `MODEL_TOKEN_LIMITS` from src/types.ts. -/
def MODEL_TOKEN_LIMITS : AIModelId → Nat
  | .gpt35turbo => 16385
  | .gpt4 => 8192
  | .geminiPro => 32768
  | .claude3sonnet => 200000
  | .o1pro => 128000

/-- `DEFAULT_MODEL_CONFIGS` from src/types.ts: maxTokens at the model's token
limit, temperature 0.7, topP 1, both penalties 0. -/
def DEFAULT_MODEL_CONFIGS (m : AIModelId) : GModelConfig :=
  { temperature := .jnum (7 / 10)
    maxTokens := .jnum (MODEL_TOKEN_LIMITS m)
    topP := .jnum 1
    frequencyPenalty := .jnum 0
    presencePenalty := .jnum 0 }

/-- Written from the spec's words, for comparison with `getModelConfig`:
"overlays any caller-supplied overrideConfig field-by-field (override wins
per field, absent fields fall back to default)". -/
def specOverlay (d : GModelConfig) (c : GPartialConfig) : GModelConfig :=
  { temperature := c.temperature.getD d.temperature
    maxTokens := c.maxTokens.getD d.maxTokens
    topP := c.topP.getD d.topP
    frequencyPenalty := c.frequencyPenalty.getD d.frequencyPenalty
    presencePenalty := c.presencePenalty.getD d.presencePenalty }

/-- Every field of the resolved config has runtime type number. -/
def allNumeric (m : GModelConfig) : Bool :=
  isNumberV m.temperature && isNumberV m.maxTokens && isNumberV m.topP
    && isNumberV m.frequencyPenalty && isNumberV m.presencePenalty

/-! ### Position arithmetic -/

theorem posOf_cons_nl (rest : List Char) :
    posOf ('\n' :: rest) = ⟨(posOf rest).line + 1, (posOf rest).col⟩ := by
  simp [posOf]

theorem posOf_cons {c : Char} (hc : c ≠ '\n') (rest : List Char) :
    posOf (c :: rest) =
      if (posOf rest).line = 0 then ⟨0, (posOf rest).col + 1⟩ else posOf rest := by
  simp [posOf, hc]

theorem lineStartOffset_zero (T : List Char) : lineStartOffset T 0 = 0 := by
  cases T <;> rfl

theorem lineStartOffset_cons (c : Char) (rest : List Char) (k : Nat) :
    lineStartOffset (c :: rest) (k + 1)
      = 1 + lineStartOffset rest (if c = '\n' then k else k + 1) := rfl

theorem lineStart_posOf (l : List Char) :
    ∀ rest : List Char, lineStartOffset (l ++ rest) (posOf l).line + (posOf l).col = l.length := by
  induction l with
  | nil => intro rest; simp [posOf, lineStartOffset_zero]
  | cons c l ih =>
    intro rest
    by_cases hc : c = '\n'
    · subst hc
      rw [posOf_cons_nl, List.cons_append, List.length_cons]
      show lineStartOffset ('\n' :: (l ++ rest)) ((posOf l).line + 1) + (posOf l).col = _
      rw [lineStartOffset_cons, if_pos rfl]
      have := ih rest
      omega
    · rw [posOf_cons hc, List.cons_append, List.length_cons]
      have hbase := ih rest
      by_cases h0 : (posOf l).line = 0
      · rw [if_pos h0]
        rw [h0, lineStartOffset_zero] at hbase
        show lineStartOffset (c :: (l ++ rest)) 0 + ((posOf l).col + 1) = _
        rw [lineStartOffset_zero]
        omega
      · rw [if_neg h0]
        obtain ⟨k, hk⟩ : ∃ k, (posOf l).line = k + 1 := ⟨(posOf l).line - 1, by omega⟩
        rw [hk] at hbase ⊢
        rw [lineStartOffset_cons, if_neg hc]
        omega

theorem offsetOf_append (l rest : List Char) : offsetOf (l ++ rest) (posOf l) = l.length := by
  unfold offsetOf
  exact lineStart_posOf l rest

theorem positionAt_append (l rest : List Char) : positionAt l.length (l ++ rest) = posOf l := by
  unfold positionAt
  rw [List.take_left]

theorem posOf_line_zero (M : List Char) (h : (posOf M).line = 0) : (posOf M).col = M.length := by
  induction M with
  | nil => simp [posOf]
  | cons c M ih =>
    by_cases hc : c = '\n'
    · subst hc
      rw [posOf_cons_nl] at h
      simp at h
    · rw [posOf_cons hc] at h ⊢
      by_cases h0 : (posOf M).line = 0
      · rw [if_pos h0] at h ⊢
        simp only [List.length_cons]
        rw [ih h0]
      · rw [if_neg h0] at h
        exact absurd h h0

theorem posOf_cons_line (c : Char) (rest : List Char) :
    (posOf (c :: rest)).line
      = if c = '\n' then (posOf rest).line + 1 else (posOf rest).line := by
  by_cases hc : c = '\n'
  · subst hc
    rw [posOf_cons_nl, if_pos rfl]
  · rw [posOf_cons hc, if_neg hc]
    by_cases h0 : (posOf rest).line = 0
    · rw [if_pos h0, h0]
    · rw [if_neg h0]

theorem posOf_cons_col (c : Char) (rest : List Char) :
    (posOf (c :: rest)).col
      = if c ≠ '\n' ∧ (posOf rest).line = 0 then (posOf rest).col + 1
        else (posOf rest).col := by
  by_cases hc : c = '\n'
  · subst hc
    rw [posOf_cons_nl, if_neg (by simp)]
  · rw [posOf_cons hc]
    by_cases h0 : (posOf rest).line = 0
    · rw [if_pos h0, if_pos ⟨hc, h0⟩]
    · rw [if_neg h0, if_neg (by simp [h0])]

theorem posOf_append_line (P M : List Char) :
    (posOf (P ++ M)).line = (posOf P).line + (posOf M).line := by
  induction P with
  | nil => simp [posOf]
  | cons c P ih =>
    rw [List.cons_append, posOf_cons_line, posOf_cons_line, ih]
    by_cases hc : c = '\n'
    · rw [if_pos hc, if_pos hc]
      omega
    · rw [if_neg hc, if_neg hc]

theorem posOf_append_col (P M : List Char) :
    (posOf (P ++ M)).col
      = if (posOf M).line = 0 then (posOf P).col + (posOf M).col else (posOf M).col := by
  induction P with
  | nil =>
    by_cases h : (posOf M).line = 0
    · rw [if_pos h]
      simp [posOf]
    · rw [if_neg h]
      simp
  | cons c P ih =>
    by_cases hc : c = '\n' <;> by_cases hM : (posOf M).line = 0 <;>
        by_cases hP : (posOf P).line = 0 <;>
      simp [List.cons_append, posOf_cons_col, posOf_append_line, ih, hc, hM, hP] <;>
      omega

theorem posLeB_append_false (P M : List Char) (h : M ≠ []) :
    posLeB (posOf (P ++ M)) (posOf P) = false := by
  have hlen : 0 < M.length := by
    cases M with
    | nil => exact absurd rfl h
    | cons a l => simp
  have hline := posOf_append_line P M
  have hcol := posOf_append_col P M
  unfold posLeB
  by_cases hM : (posOf M).line = 0
  · have hc0 := posOf_line_zero M hM
    rw [if_pos hM] at hcol
    simp only [Bool.or_eq_false_iff, Bool.and_eq_false_iff, decide_eq_false_iff_not]
    exact ⟨by omega, Or.inr (by omega)⟩
  · rw [if_neg hM] at hcol
    simp only [Bool.or_eq_false_iff, Bool.and_eq_false_iff, decide_eq_false_iff_not]
    exact ⟨by omega, Or.inl (by omega)⟩

theorem replaceRange_eq (buf x u y v text : List Char)
    (h1 : buf = x ++ u) (h2 : buf = y ++ v) :
    replaceRange buf ⟨posOf x, posOf y⟩ text = x ++ text ++ v := by
  unfold replaceRange
  have hs : offsetOf buf (posOf x) = x.length := by rw [h1]; exact offsetOf_append x u
  have he : offsetOf buf (posOf y) = y.length := by rw [h2]; exact offsetOf_append y v
  simp only [hs, he]
  rw [h1, List.take_left, ← h1, h2, List.drop_left]

/-! ### The common head/tail splitter -/

theorem commonHead_cons_eq (x : Char) (as bs : List Char) :
    commonHead (x :: as) (x :: bs)
      = (x :: (commonHead as bs).1, (commonHead as bs).2.1, (commonHead as bs).2.2) := by
  simp [commonHead]

theorem commonHead_cons_ne (x y : Char) (as bs : List Char) (h : ¬ x = y) :
    commonHead (x :: as) (y :: bs) = ([], x :: as, y :: bs) := by
  simp [commonHead, h]

theorem commonHead_spec (a : List Char) :
    ∀ b : List Char,
      a = (commonHead a b).1 ++ (commonHead a b).2.1 ∧
      b = (commonHead a b).1 ++ (commonHead a b).2.2 := by
  induction a with
  | nil => intro b; simp [commonHead]
  | cons x as ih =>
    intro b
    cases b with
    | nil => simp [commonHead]
    | cons y bs =>
      by_cases h : x = y
      · subst h
        obtain ⟨ha, hb⟩ := ih bs
        rw [commonHead_cons_eq]
        exact ⟨by rw [List.cons_append, ← ha], by rw [List.cons_append, ← hb]⟩
      · rw [commonHead_cons_ne x y as bs h]
        exact ⟨rfl, rfl⟩

theorem commonHead_self (a : List Char) : commonHead a a = (a, [], []) := by
  induction a with
  | nil => rfl
  | cons x as ih => simp [commonHead, ih]

theorem commonTail_spec (a b : List Char) :
    a = (commonTail a b).2.1 ++ (commonTail a b).1 ∧
    b = (commonTail a b).2.2 ++ (commonTail a b).1 := by
  obtain ⟨h1, h2⟩ := commonHead_spec a.reverse b.reverse
  unfold commonTail
  constructor
  · have := congrArg List.reverse h1
    simpa using this
  · have := congrArg List.reverse h2
    simpa using this

/-! ### Shape of the records produced by computeDiffs -/

theorem convertGo_all0 (A : List Char) (l : List DmpDiff) (h : ∀ q ∈ l, q.1 = 0) :
    ∀ pos : Nat, convertGo A pos l = [] := by
  induction l with
  | nil => intro pos; rfl
  | cons q rest ih =>
    intro pos
    obtain ⟨op, t⟩ := q
    have hop : op = 0 := h (op, t) (by simp)
    subst hop
    simp only [convertGo]
    rw [if_neg (by simp)]
    exact ih (fun q hq => h q (List.mem_cons_of_mem _ hq)) _

theorem convertGo_cons0 (A : List Char) (pos : Nat) (t : List Char) (rest : List DmpDiff) :
    convertGo A pos (((0 : Int), t) :: rest) = convertGo A (pos + t.length) rest := by
  simp [convertGo]

theorem convertGo_del (A : List Char) (pos : Nat) (MA : List Char) (rest : List DmpDiff) :
    convertGo A pos (((-1 : Int), MA) :: rest)
      = ⟨MA, [], ⟨positionAt pos A, positionAt (pos + MA.length) A⟩, DiffStatus.pending⟩
          :: convertGo A (pos + MA.length) rest := by
  simp [convertGo]

theorem convertGo_ins (A : List Char) (pos : Nat) (MB : List Char) (rest : List DmpDiff) :
    convertGo A pos (((1 : Int), MB) :: rest)
      = ⟨[], MB, ⟨positionAt pos A, positionAt pos A⟩, DiffStatus.pending⟩
          :: convertGo A pos rest := by
  simp [convertGo]

theorem convertGo_core (A : List Char) (p : Nat) (MA MB : List Char) (rest : List DmpDiff)
    (hrest : ∀ q ∈ rest, q.1 = 0) :
    convertGo A p
        ((if MA.isEmpty then [] else [((-1 : Int), MA)]) ++
          ((if MB.isEmpty then [] else [((1 : Int), MB)]) ++ rest))
      = (if MA.isEmpty then [] else
          [⟨MA, [], ⟨positionAt p A, positionAt (p + MA.length) A⟩, DiffStatus.pending⟩]) ++
        (if MB.isEmpty then [] else
          [⟨[], MB, ⟨positionAt (p + MA.length) A, positionAt (p + MA.length) A⟩,
            DiffStatus.pending⟩]) := by
  by_cases hMA : MA.isEmpty
  · have h0 : MA = [] := by simpa using hMA
    subst h0
    by_cases hMB : MB.isEmpty
    · have h1 : MB = [] := by simpa using hMB
      subst h1
      simp only [List.isEmpty_nil, ite_true, List.nil_append]
      exact convertGo_all0 A rest hrest p
    · simp only [List.isEmpty_nil, ite_true, List.nil_append]
      rw [if_neg hMB, if_neg hMB]
      rw [List.cons_append, List.nil_append, convertGo_ins, convertGo_all0 A rest hrest]
      simp
  · by_cases hMB : MB.isEmpty
    · have h1 : MB = [] := by simpa using hMB
      subst h1
      simp only [List.isEmpty_nil, ite_true, List.append_nil, List.nil_append]
      rw [if_neg hMA, if_neg hMA]
      rw [List.cons_append, List.nil_append, convertGo_del, convertGo_all0 A rest hrest]
    · rw [if_neg hMA, if_neg hMA, if_neg hMB, if_neg hMB]
      rw [List.cons_append, List.nil_append, List.cons_append, List.nil_append]
      rw [convertGo_del, convertGo_ins, convertGo_all0 A rest hrest]
      simp

theorem computeDiffs_cases (A B : List Char) :
    ∃ P MA MB S : List Char,
      A = P ++ (MA ++ S) ∧ B = P ++ (MB ++ S) ∧
      computeDiffs A B =
        (if MA.isEmpty then [] else
          [⟨MA, [], ⟨posOf P, posOf (P ++ MA)⟩, DiffStatus.pending⟩]) ++
        (if MB.isEmpty then [] else
          [⟨[], MB, ⟨posOf (P ++ MA), posOf (P ++ MA)⟩, DiffStatus.pending⟩]) := by
  obtain ⟨P, a1, b1, hch⟩ : ∃ P a1 b1, commonHead A B = (P, a1, b1) :=
    ⟨(commonHead A B).1, (commonHead A B).2.1, (commonHead A B).2.2, rfl⟩
  obtain ⟨S, MA, MB, hct⟩ : ∃ S MA MB, commonTail a1 b1 = (S, MA, MB) :=
    ⟨(commonTail a1 b1).1, (commonTail a1 b1).2.1, (commonTail a1 b1).2.2, rfl⟩
  have hA1 := (commonHead_spec A B).1
  have hB1 := (commonHead_spec A B).2
  rw [hch] at hA1 hB1
  dsimp only at hA1 hB1
  have hA2 := (commonTail_spec a1 b1).1
  have hB2 := (commonTail_spec a1 b1).2
  rw [hct] at hA2 hB2
  dsimp only at hA2 hB2
  have hA : A = P ++ (MA ++ S) := by rw [hA1, hA2]
  have hB : B = P ++ (MB ++ S) := by rw [hB1, hB2]
  refine ⟨P, MA, MB, S, hA, hB, ?_⟩
  have hA' : A = (P ++ MA) ++ S := by rw [hA, List.append_assoc]
  have hpos1 : positionAt P.length A = posOf P := by
    rw [hA]; exact positionAt_append P (MA ++ S)
  have hpos2 : positionAt (P.length + MA.length) A = posOf (P ++ MA) := by
    rw [← List.length_append, hA']
    exact positionAt_append (P ++ MA) S
  have hrest : ∀ q ∈ (if S.isEmpty then ([] : List DmpDiff) else [((0 : Int), S)]), q.1 = 0 := by
    intro q hq
    by_cases hS : S.isEmpty
    · rw [if_pos hS] at hq
      simp at hq
    · rw [if_neg hS] at hq
      simp at hq
      simp [hq]
  show convertToRangedDiffs (diffMain A B) A = _
  unfold diffMain
  rw [hch]
  dsimp only
  rw [hct]
  dsimp only
  unfold convertToRangedDiffs
  by_cases hPe : P.isEmpty
  · have hPnil : P = [] := by simpa using hPe
    subst hPnil
    simp only [List.isEmpty_nil, ite_true, List.nil_append]
    rw [List.append_assoc]
    rw [convertGo_core A 0 MA MB _ hrest]
    rw [show positionAt 0 A = posOf ([] : List Char) from rfl]
    have h2 : positionAt (0 + MA.length) A = posOf (([] : List Char) ++ MA) := by
      simpa using hpos2
    rw [h2, List.nil_append]
  · rw [if_neg hPe]
    rw [List.append_assoc, List.append_assoc, List.cons_append, List.nil_append,
      convertGo_cons0]
    rw [convertGo_core A (0 + P.length) MA MB _ hrest]
    rw [Nat.zero_add, hpos1, hpos2]

/-! ### The stable descending-line sort of handleAcceptAllDiffs -/

theorem insertDescLine_perm (x : DiffChange) (l : List DiffChange) :
    (insertDescLine x l).Perm (x :: l) := by
  induction l with
  | nil => exact List.Perm.refl _
  | cons y ys ih =>
    unfold insertDescLine
    by_cases h : lineOf y ≤ lineOf x
    · rw [if_pos h]
    · rw [if_neg h]
      exact (ih.cons y).trans (List.Perm.swap x y ys)

theorem sortDescLine_perm (l : List DiffChange) : (sortDescLine l).Perm l := by
  induction l with
  | nil => exact List.Perm.refl _
  | cons x xs ih =>
    unfold sortDescLine
    exact (insertDescLine_perm x (sortDescLine xs)).trans (ih.cons x)

theorem insertDescLine_sorted (x : DiffChange) (l : List DiffChange)
    (h : List.Pairwise (fun a b => lineOf b ≤ lineOf a) l) :
    List.Pairwise (fun a b => lineOf b ≤ lineOf a) (insertDescLine x l) := by
  induction l with
  | nil => simp [insertDescLine]
  | cons y ys ih =>
    rw [List.pairwise_cons] at h
    obtain ⟨hy, hys⟩ := h
    unfold insertDescLine
    by_cases hxy : lineOf y ≤ lineOf x
    · rw [if_pos hxy, List.pairwise_cons]
      refine ⟨?_, List.pairwise_cons.mpr ⟨hy, hys⟩⟩
      intro z hz
      rcases List.mem_cons.mp hz with rfl | hz'
      · exact hxy
      · exact le_trans (hy z hz') hxy
    · rw [if_neg hxy, List.pairwise_cons]
      refine ⟨?_, ih hys⟩
      intro z hz
      rcases List.mem_cons.mp ((insertDescLine_perm x ys).mem_iff.mp hz) with rfl | hz'
      · omega
      · exact hy z hz'

theorem sortDescLine_sorted (l : List DiffChange) :
    List.Pairwise (fun a b => lineOf b ≤ lineOf a) (sortDescLine l) := by
  induction l with
  | nil => simp [sortDescLine]
  | cons x xs ih =>
    unfold sortDescLine
    exact insertDescLine_sorted x (sortDescLine xs) ih

theorem sortDescLine_eq_of_perm (l l' : List DiffChange) (hp : l.Perm l')
    (hnd : (l.map lineOf).Nodup) : sortDescLine l = sortDescLine l' := by
  have hperm : (sortDescLine l).Perm (sortDescLine l') :=
    (sortDescLine_perm l).trans (hp.trans (sortDescLine_perm l').symm)
  have hnd1 : ((sortDescLine l).map lineOf).Nodup :=
    (((sortDescLine_perm l).map lineOf).nodup_iff).mpr hnd
  have hnd2 : ((sortDescLine l').map lineOf).Nodup := by
    have h' : (l'.map lineOf).Nodup := ((hp.map lineOf).nodup_iff).mp hnd
    exact (((sortDescLine_perm l').map lineOf).nodup_iff).mpr h'
  have hs1 : List.Pairwise (fun a b => lineOf b < lineOf a) (sortDescLine l) := by
    have hne : List.Pairwise (fun a b => lineOf a ≠ lineOf b) (sortDescLine l) :=
      (List.pairwise_map).mp hnd1
    exact ((sortDescLine_sorted l).and hne).imp
      (fun h => lt_of_le_of_ne h.1 (fun hh => h.2 hh.symm))
  have hs2 : List.Pairwise (fun a b => lineOf b < lineOf a) (sortDescLine l') := by
    have hne : List.Pairwise (fun a b => lineOf a ≠ lineOf b) (sortDescLine l') :=
      (List.pairwise_map).mp hnd2
    exact ((sortDescLine_sorted l').and hne).imp
      (fun h => lt_of_le_of_ne h.1 (fun hh => h.2 hh.symm))
  haveI : IsAntisymm DiffChange (fun a b => lineOf b < lineOf a) :=
    ⟨fun a b h1 h2 => absurd h2 (by omega)⟩
  exact List.eq_of_perm_of_sorted hperm hs1 hs2

/-! ### The apply loop -/

theorem applyPending_snd (l : List DiffChange) :
    ∀ buf : List Char,
      (applyPending buf l).2
        = (l.filter (fun r => decide (r.status = DiffStatus.pending))).map
            (fun r => (r.range, r.suggested)) := by
  induction l with
  | nil => intro buf; rfl
  | cons r rs ih =>
    intro buf
    unfold applyPending
    by_cases h : r.status = DiffStatus.pending
    · rw [if_pos h, List.filter_cons_of_pos (by simp [h])]
      simp only [List.map_cons]
      rw [ih]
    · rw [if_neg h, List.filter_cons_of_neg (by simp [h])]
      exact ih buf

theorem applyPending_nopending (l : List DiffChange)
    (h : ∀ r ∈ l, r.status ≠ DiffStatus.pending) :
    ∀ buf : List Char, applyPending buf l = (buf, []) := by
  induction l with
  | nil => intro buf; rfl
  | cons r rs ih =>
    intro buf
    unfold applyPending
    rw [if_neg (h r (List.mem_cons_self r rs))]
    exact ih (fun q hq => h q (List.mem_cons_of_mem r hq)) buf

/-! ### The retry loop -/

theorem retryLoop_zero (req : Nat → Except JsErr (List Char)) (sr : JsErr → Bool)
    (made : Nat) (lastErr : Option JsErr) (sleeps : List Nat) :
    retryLoop req sr 0 made lastErr sleeps = ⟨made, sleeps, .error (lastErr.getD exhaustedErr)⟩ :=
  rfl

theorem retryLoop_succ (req : Nat → Except JsErr (List Char)) (sr : JsErr → Bool)
    (fuel made : Nat) (lastErr : Option JsErr) (sleeps : List Nat) :
    retryLoop req sr (fuel + 1) made lastErr sleeps
      = match req made with
        | .ok s => ⟨made + 1, sleeps, .ok s⟩
        | .error e =>
          if sr e then
            retryLoop req sr fuel (made + 1) (some e) (sleeps ++ [RETRY_DELAY * (made + 1)])
          else ⟨made + 1, sleeps, .error e⟩ :=
  rfl

theorem retryLoop_ok (req : Nat → Except JsErr (List Char)) (sr : JsErr → Bool)
    (fuel made : Nat) (lastErr : Option JsErr) (sleeps : List Nat) (s : List Char)
    (h : req made = .ok s) :
    retryLoop req sr (fuel + 1) made lastErr sleeps = ⟨made + 1, sleeps, .ok s⟩ := by
  rw [retryLoop_succ, h]

theorem retryLoop_retry (req : Nat → Except JsErr (List Char)) (sr : JsErr → Bool)
    (fuel made : Nat) (lastErr : Option JsErr) (sleeps : List Nat) (e : JsErr)
    (h : req made = .error e) (hr : sr e = true) :
    retryLoop req sr (fuel + 1) made lastErr sleeps
      = retryLoop req sr fuel (made + 1) (some e) (sleeps ++ [RETRY_DELAY * (made + 1)]) := by
  rw [retryLoop_succ, h]
  simp [hr]

theorem retryLoop_fatal (req : Nat → Except JsErr (List Char)) (sr : JsErr → Bool)
    (fuel made : Nat) (lastErr : Option JsErr) (sleeps : List Nat) (e : JsErr)
    (h : req made = .error e) (hr : sr e = false) :
    retryLoop req sr (fuel + 1) made lastErr sleeps = ⟨made + 1, sleeps, .error e⟩ := by
  rw [retryLoop_succ, h]
  simp [hr]

/-! ### Claim C9 -/

/-- Claim C9 (confirmed): for every string X, `computeDiffs(X, X)` returns the
empty record list. -/
theorem c9_diff_self_empty (X : List Char) : computeDiffs X X = [] := by
  unfold computeDiffs diffMain
  rw [commonHead_self]
  dsimp only
  rw [show commonTail ([] : List Char) [] = ([], [], []) from rfl]
  dsimp only
  simp only [List.isEmpty_nil, ite_true, List.append_nil]
  by_cases hX : X.isEmpty
  · rw [if_pos hX]
    rfl
  · rw [if_neg hX]
    unfold convertToRangedDiffs
    rw [convertGo_cons0]
    rfl

/-! ### Claim C5 -/

/-- Claim C5 (corrected), counterexample: when the diff backend throws,
`computeDiffs` returns the empty list, not the single whole-document change
record (original "ab", suggested "xy", range spanning the whole original)
that the claim requires. -/
theorem c5_counterexample :
    computeDiffsWith (Except.error (("diff computation failure").data)) (("ab").data) = []
    ∧ ([] : List DiffChange)
        ≠ [⟨("ab").data, ("xy").data, ⟨⟨0, 0⟩, ⟨0, 2⟩⟩, DiffStatus.pending⟩] :=
  ⟨rfl, by decide⟩

/-- Claim C5 (corrected, amended): if the underlying diff computation throws,
`computeDiffs` does not propagate the error past its boundary and returns the
EMPTY record list (no whole-document fallback record is produced). -/
theorem c5_error_returns_empty (err original : List Char) :
    computeDiffsWith (Except.error err) original = [] := rfl

/-! ### Claim C6 -/

/-- Claim C6 (corrected), counterexample: for original "foo\nbar\n" and
suggested "foo\nbaz\n", `computeDiffs` returns two ChangeRecords, not exactly
one. -/
theorem c6_counterexample :
    (computeDiffs ("foo\nbar\n").data ("foo\nbaz\n").data).length = 2
    ∧ (computeDiffs ("foo\nbar\n").data ("foo\nbaz\n").data).length ≠ 1 := by
  decide

/-- Claim C6 (corrected, amended): a contiguous changed region yields one
record per non-equal operation, so the replacement in
original "foo\nbar\n" / suggested "foo\nbaz\n" yields exactly two
ChangeRecords, a deletion of "r" and a zero-width insertion of "z" at the
deletion's end, both on line index 1 (the second line). -/
theorem c6_scenario_two_records :
    computeDiffs ("foo\nbar\n").data ("foo\nbaz\n").data
      = [⟨("r").data, [], ⟨⟨1, 2⟩, ⟨1, 3⟩⟩, DiffStatus.pending⟩,
         ⟨[], ("z").data, ⟨⟨1, 3⟩, ⟨1, 3⟩⟩, DiffStatus.pending⟩] := by
  decide

/-! ### Claim C1 -/

/-- Claim C1 (corrected), counterexample: for A = "aXbcd", B = "aYbcd",
sequentially replacing each record's range by its suggested text in the order
the apply coordinator produces (stable sort by descending start LINE, which
keeps the same-line deletion before the insertion) yields "abYcd", not B. -/
theorem c1_counterexample :
    applySeq ("aXbcd").data (sortDescLine (computeDiffs ("aXbcd").data ("aYbcd").data))
        = ("abYcd").data
    ∧ (handleAcceptAllDiffs
          ⟨computeDiffs ("aXbcd").data ("aYbcd").data, ("aXbcd").data⟩).1.buffer
        = ("abYcd").data
    ∧ ("abYcd").data ≠ ("aYbcd").data := by
  refine ⟨by decide, by decide, by decide⟩

/-- Claim C1 (corrected, amended): for every pair of strings A and B,
sequentially applying the records of `computeDiffs A B` (replacing each
record's range by its suggested text on the live buffer) in descending order
of FULL start position (line, then column) yields exactly B. -/
theorem c1_roundtrip_desc_position (A B : List Char) :
    applySeq A (sortDescPos (computeDiffs A B)) = B := by
  obtain ⟨P, MA, MB, S, hA, hB, hCD⟩ := computeDiffs_cases A B
  rw [hCD]
  by_cases hMA : MA.isEmpty
  · have h0 : MA = [] := by simpa using hMA
    subst h0
    by_cases hMB : MB.isEmpty
    · have h1 : MB = [] := by simpa using hMB
      subst h1
      simp only [List.isEmpty_nil, ite_true, List.nil_append]
      show A = B
      rw [hA, hB]
    · simp only [List.isEmpty_nil, ite_true, List.nil_append, List.append_nil]
      rw [if_neg hMB]
      have hA' : A = P ++ S := by simpa using hA
      show replaceRange A ⟨posOf P, posOf P⟩ MB = B
      rw [replaceRange_eq A P S P S MB hA' hA']
      rw [hB]
      simp [List.append_assoc]
  · by_cases hMB : MB.isEmpty
    · have h1 : MB = [] := by simpa using hMB
      subst h1
      simp only [List.isEmpty_nil, ite_true, List.append_nil]
      rw [if_neg hMA]
      have hA2 : A = (P ++ MA) ++ S := by rw [hA, List.append_assoc]
      show replaceRange A ⟨posOf P, posOf (P ++ MA)⟩ [] = B
      rw [replaceRange_eq A P (MA ++ S) (P ++ MA) S [] hA hA2]
      rw [hB]
      simp
    · rw [if_neg hMA, if_neg hMB]
      have hMAne : MA ≠ [] := by
        intro hh
        rw [hh] at hMA
        exact hMA rfl
      have hfalse : posLeB (posOf (P ++ MA)) (posOf P) = false :=
        posLeB_append_false P MA hMAne
      have hsort :
          sortDescPos
              [⟨MA, [], ⟨posOf P, posOf (P ++ MA)⟩, DiffStatus.pending⟩,
               ⟨[], MB, ⟨posOf (P ++ MA), posOf (P ++ MA)⟩, DiffStatus.pending⟩]
            = [⟨[], MB, ⟨posOf (P ++ MA), posOf (P ++ MA)⟩, DiffStatus.pending⟩,
               ⟨MA, [], ⟨posOf P, posOf (P ++ MA)⟩, DiffStatus.pending⟩] := by
        show insertDescPos _ [_] = _
        unfold insertDescPos
        rw [if_neg (by simp [hfalse])]
        rfl
      rw [List.cons_append, List.nil_append, hsort]
      have hA2 : A = (P ++ MA) ++ S := by rw [hA, List.append_assoc]
      show replaceRange
          (replaceRange A ⟨posOf (P ++ MA), posOf (P ++ MA)⟩ MB)
          ⟨posOf P, posOf (P ++ MA)⟩ [] = B
      rw [replaceRange_eq A (P ++ MA) S (P ++ MA) S MB hA2 hA2]
      have hb1a : (P ++ MA) ++ MB ++ S = P ++ (MA ++ (MB ++ S)) := by
        simp [List.append_assoc]
      have hb1b : (P ++ MA) ++ MB ++ S = (P ++ MA) ++ (MB ++ S) := by
        simp [List.append_assoc]
      rw [replaceRange_eq ((P ++ MA) ++ MB ++ S) P (MA ++ (MB ++ S)) (P ++ MA) (MB ++ S)
        [] hb1a hb1b]
      rw [hB]
      simp

/-! ### Claim C2 -/

/-- Claim C2 (corrected), counterexample: two pending insertion records at the
same position (hence the same start line) are NOT reordered by the batch-apply
sort, and swapping them changes the final buffer ("ba" versus "ab"): the
batch-apply operation is not invariant under all permutations of the record
list. -/
theorem c2_counterexample :
    (([⟨[], ("a").data, ⟨⟨0, 0⟩, ⟨0, 0⟩⟩, DiffStatus.pending⟩,
       ⟨[], ("b").data, ⟨⟨0, 0⟩, ⟨0, 0⟩⟩, DiffStatus.pending⟩] : List DiffChange)).Perm
      [⟨[], ("b").data, ⟨⟨0, 0⟩, ⟨0, 0⟩⟩, DiffStatus.pending⟩,
       ⟨[], ("a").data, ⟨⟨0, 0⟩, ⟨0, 0⟩⟩, DiffStatus.pending⟩]
    ∧ (handleAcceptAllDiffs
          ⟨[⟨[], ("a").data, ⟨⟨0, 0⟩, ⟨0, 0⟩⟩, DiffStatus.pending⟩,
            ⟨[], ("b").data, ⟨⟨0, 0⟩, ⟨0, 0⟩⟩, DiffStatus.pending⟩], []⟩).1.buffer
        ≠ (handleAcceptAllDiffs
            ⟨[⟨[], ("b").data, ⟨⟨0, 0⟩, ⟨0, 0⟩⟩, DiffStatus.pending⟩,
              ⟨[], ("a").data, ⟨⟨0, 0⟩, ⟨0, 0⟩⟩, DiffStatus.pending⟩], []⟩).1.buffer := by
  decide

/-- Claim C2 (corrected, amended): the batch-apply operation stable-sorts the
records by descending start LINE only (not full document position); for any
two permutations of a record list whose start lines are pairwise distinct,
batch-apply leaves the buffer with identical final content. -/
theorem c2_perm_invariance_distinct_lines (l l' : List DiffChange) (buf : List Char)
    (hp : l.Perm l') (hnd : (l.map lineOf).Nodup) :
    (handleAcceptAllDiffs ⟨l, buf⟩).1.buffer = (handleAcceptAllDiffs ⟨l', buf⟩).1.buffer
    ∧ List.Pairwise (fun a b => lineOf b ≤ lineOf a) (sortDescLine l) := by
  constructor
  · have hs := sortDescLine_eq_of_perm l l' hp hnd
    show (applyPending buf (sortDescLine l)).1 = (applyPending buf (sortDescLine l')).1
    rw [hs]
  · exact sortDescLine_sorted l

/-- Witness for C2's amended theorem at a concrete input: two records on
distinct lines 0 and 1, swapped. -/
theorem c2_perm_invariance_witness :
    (handleAcceptAllDiffs
        ⟨[⟨[], ("A").data, ⟨⟨0, 0⟩, ⟨0, 0⟩⟩, DiffStatus.pending⟩,
          ⟨[], ("B").data, ⟨⟨1, 0⟩, ⟨1, 0⟩⟩, DiffStatus.pending⟩], ("x\ny").data⟩).1.buffer
      = (handleAcceptAllDiffs
          ⟨[⟨[], ("B").data, ⟨⟨1, 0⟩, ⟨1, 0⟩⟩, DiffStatus.pending⟩,
            ⟨[], ("A").data, ⟨⟨0, 0⟩, ⟨0, 0⟩⟩, DiffStatus.pending⟩], ("x\ny").data⟩).1.buffer
    ∧ List.Pairwise (fun a b => lineOf b ≤ lineOf a)
        (sortDescLine
          [⟨[], ("A").data, ⟨⟨0, 0⟩, ⟨0, 0⟩⟩, DiffStatus.pending⟩,
           ⟨[], ("B").data, ⟨⟨1, 0⟩, ⟨1, 0⟩⟩, DiffStatus.pending⟩]) :=
  c2_perm_invariance_distinct_lines _ _ _ (by decide) (by decide)

/-! ### Claim C7 -/

/-- Claim C7 (confirmed): `handleAcceptAllDiffs` applies exactly the records
whose status is currently pending (the batch is the pending-filtered sorted
list; accepted/rejected records are untouched), so calling it twice in a row
performs the buffer mutation only once: the second call applies an empty
batch and leaves the buffer unchanged. -/
theorem c7_accept_all_idempotent (st : ApplyState) :
    (handleAcceptAllDiffs st).2
      = ((sortDescLine st.diffs).filter (fun r => decide (r.status = DiffStatus.pending))).map
          (fun r => (r.range, r.suggested))
    ∧ (handleAcceptAllDiffs (handleAcceptAllDiffs st).1).2 = []
    ∧ (handleAcceptAllDiffs (handleAcceptAllDiffs st).1).1.buffer
        = (handleAcceptAllDiffs st).1.buffer := by
  have hnp : ∀ r ∈ (handleAcceptAllDiffs st).1.diffs, r.status ≠ DiffStatus.pending := by
    intro r hr
    have hr' : r ∈ st.diffs.map
        (fun r => if r.status = DiffStatus.pending
          then { r with status := DiffStatus.accepted } else r) := hr
    obtain ⟨r0, _, rfl⟩ := List.mem_map.mp hr'
    by_cases h : r0.status = DiffStatus.pending
    · rw [if_pos h]
      simp
    · rw [if_neg h]
      exact h
  have hnp2 : ∀ r ∈ sortDescLine (handleAcceptAllDiffs st).1.diffs,
      r.status ≠ DiffStatus.pending :=
    fun r hr => hnp r ((sortDescLine_perm _).mem_iff.mp hr)
  have happ := applyPending_nopending _ hnp2 (handleAcceptAllDiffs st).1.buffer
  refine ⟨applyPending_snd (sortDescLine st.diffs) st.buffer, ?_, ?_⟩
  · show (applyPending (handleAcceptAllDiffs st).1.buffer
        (sortDescLine (handleAcceptAllDiffs st).1.diffs)).2 = []
    rw [happ]
  · show (applyPending (handleAcceptAllDiffs st).1.buffer
        (sortDescLine (handleAcceptAllDiffs st).1.diffs)).1
      = (handleAcceptAllDiffs st).1.buffer
    rw [happ]

/-! ### Claim C3 -/

/-- Claim C3 (confirmed): with a present API key and a provider request that
fails with a retryable error on every attempt, `generateResponse` makes
exactly MAX_RETRIES (3) request attempts, sleeps linearly increasing delays
of attempt * RETRY_DELAY (1000, 2000, 3000 ms), and rejects with the last
error. -/
theorem c3_retry_bound (authErr : JsErr) (sr : JsErr → Bool) (key : List Char)
    (req : Nat → Except JsErr (List Char)) (e : Nat → JsErr)
    (hkey : key ≠ [])
    (hreq : ∀ i, req i = Except.error (e i))
    (hsr : ∀ i, sr (e i) = true) :
    generateResponse authErr sr (some key) req
      = ⟨MAX_RETRIES, [1 * RETRY_DELAY, 2 * RETRY_DELAY, 3 * RETRY_DELAY],
         Except.error (e 2)⟩ := by
  have hke : key.isEmpty = false := by
    cases key with
    | nil => exact absurd rfl hkey
    | cons a l => rfl
  have s1 : retryLoop req sr 3 0 none [] = retryLoop req sr 2 1 (some (e 0)) [1000] := by
    have := retryLoop_retry req sr 2 0 none [] (e 0) (hreq 0) (hsr 0)
    simpa [RETRY_DELAY] using this
  have s2 : retryLoop req sr 2 1 (some (e 0)) [1000]
      = retryLoop req sr 1 2 (some (e 1)) [1000, 2000] := by
    have := retryLoop_retry req sr 1 1 (some (e 0)) [1000] (e 1) (hreq 1) (hsr 1)
    simpa [RETRY_DELAY] using this
  have s3 : retryLoop req sr 1 2 (some (e 1)) [1000, 2000]
      = retryLoop req sr 0 3 (some (e 2)) [1000, 2000, 3000] := by
    have := retryLoop_retry req sr 0 2 (some (e 1)) [1000, 2000] (e 2) (hreq 2) (hsr 2)
    simpa [RETRY_DELAY] using this
  have s4 : retryLoop req sr 0 3 (some (e 2)) [1000, 2000, 3000]
      = ⟨3, [1000, 2000, 3000], Except.error (e 2)⟩ := by
    rw [retryLoop_zero]
    rfl
  simp only [generateResponse, hke]
  rw [if_neg Bool.false_ne_true]
  rw [show MAX_RETRIES = 3 from rfl, s1, s2, s3, s4]
  norm_num [MAX_RETRIES, RETRY_DELAY]

/-- Witness for C3 at a concrete input: the OpenAI service instance, a present
key, and a request that always fails with a "timeout" error (classified as
retryable by OpenAIService.shouldRetry). -/
theorem c3_retry_bound_witness :
    generateResponse openAIKeyError shouldRetryOpenAI (some ("k").data)
        (fun _ => Except.error ⟨("timeout").data⟩)
      = ⟨MAX_RETRIES, [1 * RETRY_DELAY, 2 * RETRY_DELAY, 3 * RETRY_DELAY],
         Except.error ⟨("timeout").data⟩⟩ :=
  c3_retry_bound openAIKeyError shouldRetryOpenAI ("k").data
    (fun _ => Except.error ⟨("timeout").data⟩) (fun _ => ⟨("timeout").data⟩)
    (by decide) (fun _ => rfl)
    (fun _ => (by decide : shouldRetryOpenAI ⟨("timeout").data⟩ = true))

/-! ### Claim C4 -/

/-- Claim C4 (confirmed): a missing API key makes `generateResponse` reject
with the authentication error before any request attempt (zero attempts), and
a non-retryable (authentication-class) error on the first attempt results in
exactly one attempt, no sleeps, and immediate rejection with that error. -/
theorem c4_auth_fail_fast (authErr : JsErr) (sr : JsErr → Bool) (key : List Char)
    (req : Nat → Except JsErr (List Char)) (e : JsErr) :
    generateResponse authErr sr none req = ⟨0, [], Except.error authErr⟩
    ∧ (key ≠ [] → req 0 = Except.error e → sr e = false →
        generateResponse authErr sr (some key) req = ⟨1, [], Except.error e⟩) := by
  refine ⟨rfl, ?_⟩
  intro hkey hreq hsr
  have hke : key.isEmpty = false := by
    cases key with
    | nil => exact absurd rfl hkey
    | cons a l => rfl
  simp only [generateResponse, hke]
  rw [if_neg Bool.false_ne_true]
  rw [show MAX_RETRIES = 2 + 1 from rfl]
  rw [retryLoop_fatal req sr 2 0 none [] e hreq hsr]

/-- Witness for C4 at a concrete input: the OpenAI service instance with no
key, and with a present key plus an authentication error message that matches
none of the retryable markers. -/
theorem c4_auth_fail_fast_witness :
    generateResponse openAIKeyError shouldRetryOpenAI none
        (fun _ => Except.error ⟨("x").data⟩)
      = ⟨0, [], Except.error openAIKeyError⟩
    ∧ generateResponse openAIKeyError shouldRetryOpenAI (some ("k").data)
        (fun _ => Except.error ⟨("OpenAI API error: invalid authentication").data⟩)
      = ⟨1, [], Except.error ⟨("OpenAI API error: invalid authentication").data⟩⟩ :=
  ⟨(c4_auth_fail_fast openAIKeyError shouldRetryOpenAI ("k").data
      (fun _ => Except.error ⟨("x").data⟩)
      ⟨("OpenAI API error: invalid authentication").data⟩).1,
   (c4_auth_fail_fast openAIKeyError shouldRetryOpenAI ("k").data
      (fun _ => Except.error ⟨("OpenAI API error: invalid authentication").data⟩)
      ⟨("OpenAI API error: invalid authentication").data⟩).2
     (by decide) rfl (by decide)⟩

/-! ### Claim C8 -/

/-- Claim C8 (corrected), counterexample: a caller override of maxTokens =
1000000 over the gemini-pro default resolves successfully (no configuration
error) even though it exceeds MODEL_TOKEN_LIMITS['gemini-pro'] = 32768: the
ceiling IS silently exceeded, and no out-of-range check is performed. -/
theorem c8_counterexample :
    getModelConfig (some (DEFAULT_MODEL_CONFIGS AIModelId.geminiPro))
        (some ⟨none, some (JVal.jnum 1000000), none, none, none⟩)
      = Except.ok ⟨JVal.jnum (7 / 10), JVal.jnum 1000000, JVal.jnum 1,
          JVal.jnum 0, JVal.jnum 0⟩
    ∧ ((MODEL_TOKEN_LIMITS AIModelId.geminiPro : ℚ) < 1000000) := by
  refine ⟨rfl, ?_⟩
  show ((32768 : ℚ) < 1000000)
  norm_num

/-- Claim C8 (corrected, amended): `getModelConfig` overlays the caller's
override field-by-field over the provider default (override wins per present
field, absent fields fall back to the default) and rejects with a
configuration error exactly when some resolved field is non-numeric; it
performs no range validation, so any numeric maxTokens override — including
one above the per-model token ceiling — passes through unchanged. -/
theorem c8_overlay_numeric_validation_only (d : GModelConfig) (c : GPartialConfig) :
    getModelConfig (some d) (some c)
      = if allNumeric (specOverlay d c) then Except.ok (specOverlay d c)
        else Except.error invalidConfigMsg := by
  have hb : ∀ f : GPartialConfig → Option JVal, (some c).bind f = f c := fun f => rfl
  unfold getModelConfig specOverlay allNumeric
  simp only [hb]
  cases h1 : isNumberV (c.temperature.getD d.temperature) <;>
    cases h2 : isNumberV (c.maxTokens.getD d.maxTokens) <;>
    cases h3 : isNumberV (c.topP.getD d.topP) <;>
    cases h4 : isNumberV (c.frequencyPenalty.getD d.frequencyPenalty) <;>
    cases h5 : isNumberV (c.presencePenalty.getD d.presencePenalty) <;>
    simp [h1, h2, h3, h4, h5]

/-! ### Claim C10 -/

theorem convertGo_cons (original : List Char) (pos : Nat) (op : Int) (t : List Char)
    (rest : List DmpDiff) :
    convertGo original pos ((op, t) :: rest)
      = if op ≠ 0 then
          (⟨if op = -1 then t else [], if op = 1 then t else [],
            ⟨positionAt pos original,
             positionAt (pos + (if op = -1 then t.length else 0)) original⟩,
            DiffStatus.pending⟩ : DiffChange)
            :: convertGo original (if op ≠ 1 then pos + t.length else pos) rest
        else convertGo original (if op ≠ 1 then pos + t.length else pos) rest :=
  rfl

/-- Claim C10 (corrected, amended): every record produced by
`convertToRangedDiffs` is a pure insertion (empty original text, zero-width
range) or a pure deletion (empty suggested text); and a replacement is
emitted as two separate records where the zero-width insertion sits at the
deletion's END position, not at the same start position. -/
theorem c10_pure_insert_or_delete :
    (∀ (ds : List DmpDiff) (original : List Char) (r : DiffChange),
        r ∈ convertToRangedDiffs ds original →
        (r.original = [] ∨ r.suggested = [])
        ∧ (r.original = [] → r.range.start = r.range.stop))
    ∧ (∀ (A B : List Char) (r1 r2 : DiffChange),
        computeDiffs A B = [r1, r2] →
        r1.suggested = [] ∧ r2.original = [] ∧ r2.range.start = r1.range.stop
        ∧ r2.range.stop = r2.range.start) := by
  constructor
  · have aux : ∀ (ds : List DmpDiff) (original : List Char) (pos : Nat) (r : DiffChange),
        r ∈ convertGo original pos ds →
        (r.original = [] ∨ r.suggested = [])
        ∧ (r.original = [] → r.range.start = r.range.stop) := by
      intro ds
      induction ds with
      | nil =>
        intro original pos r hr
        simp [convertGo] at hr
      | cons q rest ih =>
        intro original pos r hr
        obtain ⟨op, t⟩ := q
        rw [convertGo_cons] at hr
        by_cases hop : op ≠ 0
        · rw [if_pos hop] at hr
          rcases List.mem_cons.mp hr with rfl | hr'
          · constructor
            · by_cases hdel : op = -1
              · right
                simp [hdel]
              · left
                simp [hdel]
            · intro hor
              by_cases hdel : op = -1
              · have ht : t = [] := by simpa [hdel] using hor
                subst ht
                simp [hdel]
              · simp [hdel]
          · exact ih original _ r hr'
        · rw [if_neg hop] at hr
          exact ih original _ r hr
    intro ds original r hr
    exact aux ds original 0 r hr
  · intro A B r1 r2 h
    obtain ⟨P, MA, MB, S, hA, hB, hCD⟩ := computeDiffs_cases A B
    rw [h] at hCD
    by_cases hMA : MA.isEmpty <;> by_cases hMB : MB.isEmpty
    · rw [if_pos hMA, if_pos hMB] at hCD
      simp at hCD
    · rw [if_pos hMA, if_neg hMB] at hCD
      simp at hCD
    · rw [if_neg hMA, if_pos hMB] at hCD
      simp at hCD
    · rw [if_neg hMA, if_neg hMB] at hCD
      simp only [List.cons_append, List.nil_append, List.cons.injEq, and_true] at hCD
      obtain ⟨h1, h2⟩ := hCD
      subst h1
      subst h2
      exact ⟨rfl, rfl, rfl, rfl⟩

/-- Witness for C10 at concrete inputs: the deletion record of a one-operation
stream, and the deletion/insertion pair produced for "aXbcd" versus
"aYbcd". -/
theorem c10_pure_insert_or_delete_witness :
    (((⟨("a").data, [], ⟨⟨0, 0⟩, ⟨0, 1⟩⟩, DiffStatus.pending⟩ : DiffChange).original = []
        ∨ (⟨("a").data, [], ⟨⟨0, 0⟩, ⟨0, 1⟩⟩, DiffStatus.pending⟩ : DiffChange).suggested = [])
      ∧ ((⟨("a").data, [], ⟨⟨0, 0⟩, ⟨0, 1⟩⟩, DiffStatus.pending⟩ : DiffChange).original = [] →
          (⟨("a").data, [], ⟨⟨0, 0⟩, ⟨0, 1⟩⟩, DiffStatus.pending⟩ : DiffChange).range.start
            = (⟨("a").data, [], ⟨⟨0, 0⟩, ⟨0, 1⟩⟩, DiffStatus.pending⟩ : DiffChange).range.stop))
    ∧ ((⟨("X").data, [], ⟨⟨0, 1⟩, ⟨0, 2⟩⟩, DiffStatus.pending⟩ : DiffChange).suggested = []
        ∧ (⟨[], ("Y").data, ⟨⟨0, 2⟩, ⟨0, 2⟩⟩, DiffStatus.pending⟩ : DiffChange).original = []
        ∧ (⟨[], ("Y").data, ⟨⟨0, 2⟩, ⟨0, 2⟩⟩, DiffStatus.pending⟩ : DiffChange).range.start
            = (⟨("X").data, [], ⟨⟨0, 1⟩, ⟨0, 2⟩⟩, DiffStatus.pending⟩ : DiffChange).range.stop
        ∧ (⟨[], ("Y").data, ⟨⟨0, 2⟩, ⟨0, 2⟩⟩, DiffStatus.pending⟩ : DiffChange).range.stop
            = (⟨[], ("Y").data, ⟨⟨0, 2⟩, ⟨0, 2⟩⟩, DiffStatus.pending⟩ : DiffChange).range.start) :=
  ⟨c10_pure_insert_or_delete.1 [((-1 : Int), ("a").data)] (("ab").data) _ (by decide),
   c10_pure_insert_or_delete.2 (("aXbcd").data) (("aYbcd").data) _ _ (by decide)⟩

/-- Claim C10 (corrected), counterexample: the two records of the replacement
in "aXbcd" versus "aYbcd" start at positions (0,1) and (0,2) — the insertion
does NOT share the deletion's start position. -/
theorem c10_counterexample :
    (computeDiffs ("aXbcd").data ("aYbcd").data).map (fun r => r.range.start)
      = [⟨0, 1⟩, ⟨0, 2⟩]
    ∧ (⟨0, 1⟩ : Pos) ≠ ⟨0, 2⟩ := by
  decide

end Aurora
